import Mathlib

/-!
Shallow embedding of `evaluate_cifar.py` (Haimrich/barlowtwins), the linear
evaluation / fine-tuning script for CIFAR-10/100.  Python floats are modelled
as exact rationals (`ℚ`); the counting and bookkeeping performed by the script
is exact integer arithmetic well inside the range where IEEE doubles are
faithful, and each place where a float truncation occurs is noted at the
corresponding definition.
-/

/-- State of `AverageMeter` (lines 279-300): fields `name`, `fmt`, `val`,
`avg`, `sum`, `count` as set up by `__init__`/`reset`. -/
structure AverageMeter where
  name : String
  fmt : String
  val : ℚ
  avg : ℚ
  sum : ℚ
  count : ℚ

/-- `AverageMeter.reset` (lines 286-290): zero `val`, `avg`, `sum`, `count`. -/
def AverageMeter.reset (m : AverageMeter) : AverageMeter :=
  { m with val := 0, avg := 0, sum := 0, count := 0 }

/-- `AverageMeter.__init__(name, fmt=':f')` (lines 281-284): store the two
format fields and call `reset`. -/
def AverageMeter.init (name : String) (fmt : String := ":f") : AverageMeter :=
  AverageMeter.reset ⟨name, fmt, 0, 0, 0, 0⟩

/-- `AverageMeter.update(val, n=1)` (lines 292-296): record the current value,
accumulate `sum` and `count`, and recompute `avg = sum / count`. -/
def AverageMeter.update (m : AverageMeter) (v : ℚ) (n : ℕ := 1) : AverageMeter :=
  let s := m.sum + v * (n : ℚ)
  let c := m.count + (n : ℚ)
  { m with val := v, sum := s, count := c, avg := s / c }

/-- A sequence of `update` calls, first element first. -/
def AverageMeter.updates (m : AverageMeter) (l : List (ℚ × ℕ)) : AverageMeter :=
  l.foldl (fun m p => m.update p.1 p.2) m

theorem AverageMeter.updates_nil (m : AverageMeter) : m.updates [] = m := rfl

theorem AverageMeter.updates_cons (m : AverageMeter) (p : ℚ × ℕ) (l : List (ℚ × ℕ)) :
    m.updates (p :: l) = (m.update p.1 p.2).updates l := rfl

theorem AverageMeter.updates_sum (m : AverageMeter) (l : List (ℚ × ℕ)) :
    (m.updates l).sum = m.sum + (l.map (fun p => p.1 * (p.2 : ℚ))).sum := by
  induction l generalizing m with
  | nil => simp [AverageMeter.updates]
  | cons p t ih =>
    rw [AverageMeter.updates_cons, ih]
    simp [AverageMeter.update]
    ring

theorem AverageMeter.updates_count (m : AverageMeter) (l : List (ℚ × ℕ)) :
    (m.updates l).count = m.count + (l.map (fun p => (p.2 : ℚ))).sum := by
  induction l generalizing m with
  | nil => simp [AverageMeter.updates]
  | cons p t ih =>
    rw [AverageMeter.updates_cons, ih]
    simp [AverageMeter.update]
    ring

theorem AverageMeter.updates_avg (m : AverageMeter) (l : List (ℚ × ℕ))
    (h : m.avg = m.sum / m.count) :
    (m.updates l).avg = (m.updates l).sum / (m.updates l).count := by
  induction l generalizing m with
  | nil => simpa [AverageMeter.updates] using h
  | cons p t ih =>
    rw [AverageMeter.updates_cons]
    exact ih _ rfl

theorem AverageMeter.updates_val (m : AverageMeter) (l : List (ℚ × ℕ)) (h : l ≠ []) :
    (m.updates l).val = (l.getLast h).1 := by
  induction l generalizing m with
  | nil => exact absurd rfl h
  | cons p t ih =>
    rw [AverageMeter.updates_cons]
    cases t with
    | nil => simp [AverageMeter.updates, AverageMeter.update]
    | cons q s =>
      rw [List.getLast_cons (by simp)]
      exact ih _ (by simp)

/-- Claim C2: starting from `reset()`, a sequence of `update(v_i, n_i)` calls
with every `n_i ≥ 1` leaves `sum = Σ v_i·n_i`, `count = Σ n_i`,
`avg = sum / count` and `val` equal to the last `v`; `reset()` itself zeroes
`val`, `avg`, `sum` and `count`. -/
theorem averageMeter_update_spec (m0 : AverageMeter) (l : List (ℚ × ℕ))
    (hn : ∀ p ∈ l, 1 ≤ p.2) (hne : l ≠ []) :
    (m0.reset.updates l).sum = (l.map (fun p => p.1 * (p.2 : ℚ))).sum ∧
    (m0.reset.updates l).count = (l.map (fun p => (p.2 : ℚ))).sum ∧
    (m0.reset.updates l).avg = (m0.reset.updates l).sum / (m0.reset.updates l).count ∧
    (m0.reset.updates l).val = (l.getLast hne).1 ∧
    m0.reset.val = 0 ∧ m0.reset.avg = 0 ∧ m0.reset.sum = 0 ∧ m0.reset.count = 0 := by
  refine ⟨?_, ?_, ?_, ?_, rfl, rfl, rfl, rfl⟩
  · rw [AverageMeter.updates_sum]; simp [AverageMeter.reset]
  · rw [AverageMeter.updates_count]; simp [AverageMeter.reset]
  · exact AverageMeter.updates_avg _ _ (by simp [AverageMeter.reset])
  · exact AverageMeter.updates_val _ _ hne

/-- Witness for `averageMeter_update_spec` at a concrete input. -/
theorem averageMeter_update_spec_witness :
    ((AverageMeter.init "Acc@1").reset.updates [(3, 2), (6, 1)]).sum =
      ([((3 : ℚ), (2 : ℕ)), (6, 1)].map (fun p => p.1 * (p.2 : ℚ))).sum ∧
    ((AverageMeter.init "Acc@1").reset.updates [(3, 2), (6, 1)]).count =
      ([((3 : ℚ), (2 : ℕ)), (6, 1)].map (fun p => (p.2 : ℚ))).sum ∧
    ((AverageMeter.init "Acc@1").reset.updates [(3, 2), (6, 1)]).avg =
      ((AverageMeter.init "Acc@1").reset.updates [(3, 2), (6, 1)]).sum /
        ((AverageMeter.init "Acc@1").reset.updates [(3, 2), (6, 1)]).count ∧
    ((AverageMeter.init "Acc@1").reset.updates [(3, 2), (6, 1)]).val =
      (([((3 : ℚ), (2 : ℕ)), (6, 1)]).getLast (by simp)).1 ∧
    (AverageMeter.init "Acc@1").reset.val = 0 ∧
    (AverageMeter.init "Acc@1").reset.avg = 0 ∧
    (AverageMeter.init "Acc@1").reset.sum = 0 ∧
    (AverageMeter.init "Acc@1").reset.count = 0 :=
  averageMeter_update_spec (AverageMeter.init "Acc@1") [(3, 2), (6, 1)]
    (by intro p hp; fin_cases hp <;> norm_num) (by simp)

/-- Ordering of class indices used to model `output.topk(maxk, 1, True, True)`
on one row of scores: index `i` comes before index `j` when its score is
strictly higher, ties broken towards the smaller index.  This is a total
order, so sorting by it yields the canonical descending arrangement of the
row's scores. -/
def topkRel (row : List ℚ) (i j : ℕ) : Prop :=
  row.getD j 0 < row.getD i 0 ∨ (row.getD i 0 = row.getD j 0 ∧ i ≤ j)

instance (row : List ℚ) : DecidableRel (topkRel row) := fun i j => by
  unfold topkRel; infer_instance

instance (row : List ℚ) : IsTotal ℕ (topkRel row) := by
  constructor
  intro i j
  rcases lt_trichotomy (row.getD i 0) (row.getD j 0) with h | h | h
  · exact Or.inr (Or.inl h)
  · rcases le_total i j with hij | hij
    · exact Or.inl (Or.inr ⟨h, hij⟩)
    · exact Or.inr (Or.inr ⟨h.symm, hij⟩)
  · exact Or.inl (Or.inl h)

instance (row : List ℚ) : IsTrans ℕ (topkRel row) := by
  constructor
  intro i j k hij hjk
  rcases hij with h1 | ⟨e1, le1⟩
  · rcases hjk with h2 | ⟨e2, _⟩
    · exact Or.inl (h2.trans h1)
    · exact Or.inl (e2 ▸ h1)
  · rcases hjk with h2 | ⟨e2, le2⟩
    · exact Or.inl (e1 ▸ h2)
    · exact Or.inr ⟨e1.trans e2, le1.trans le2⟩

/-- Indices of the `k` highest-scoring classes of `row`, best first: the index
output of `row.topk(k, largest=True, sorted=True)`. -/
def topkIdx (row : List ℚ) (k : ℕ) : List ℕ :=
  (List.insertionSort (topkRel row) (List.range row.length)).take k

/-- `accuracy(output, target, topk)` (lines 303-317), over exact rationals.
Mirrors the source line by line: `maxk = max(topk)`; `batch_size =
target.size(0)`; `pred` holds the top-`maxk` class indices of each row;
`pred = pred.t()` is the transpose (for a `B × maxk` index matrix, row `i` of
the transpose lists entry `i` of every row); `correct` compares the transpose
against the broadcast target; for each `k` the first `k` rows of `correct`
are flattened, summed, and scaled by `100.0 / batch_size`. -/
def accuracy (output : List (List ℚ)) (target : List ℕ) (topk : List ℕ) : List ℚ :=
  let maxk := topk.foldl max 0
  let batch_size := target.length
  let pred := output.map (fun row => topkIdx row maxk)
  let predT := (List.range maxk).map (fun i => pred.map (fun prow => prow.getD i 0))
  let correct := predT.map (fun prow => (prow.zip target).map (fun pt => pt.1 == pt.2))
  topk.map (fun k =>
    let correct_k : ℕ := ((correct.take k).map (fun r => r.countP id)).sum
    (correct_k : ℚ) * (100 / (batch_size : ℚ)))

/-- Number of rows of `output` whose target label appears among the `k`
highest-scoring classes of that row — the right-hand side of claim C1. -/
def countHits (output : List (List ℚ)) (target : List ℕ) (k : ℕ) : ℕ :=
  (output.zip target).countP (fun rt => decide (rt.2 ∈ topkIdx rt.1 k))

theorem init_le_foldl_max (l : List ℕ) (a : ℕ) : a ≤ l.foldl max a := by
  induction l generalizing a with
  | nil => simp
  | cons x t ih => exact le_trans (le_max_left a x) (ih (max a x))

theorem mem_le_foldl_max (l : List ℕ) (a x : ℕ) (hx : x ∈ l) : x ≤ l.foldl max a := by
  induction l generalizing a with
  | nil => simp at hx
  | cons y t ih =>
    rcases List.mem_cons.mp hx with rfl | hx'
    · exact le_trans (le_max_right a x) (init_le_foldl_max t (max a x))
    · exact ih _ hx'

theorem topkIdx_sorted_perm (row : List ℚ) :
    (List.insertionSort (topkRel row) (List.range row.length)).Perm
      (List.range row.length) :=
  List.perm_insertionSort _ _

theorem topkIdx_length (row : List ℚ) (k : ℕ) :
    (topkIdx row k).length = min k row.length := by
  simp [topkIdx, (topkIdx_sorted_perm row).length_eq]

theorem topkIdx_nodup (row : List ℚ) (k : ℕ) : (topkIdx row k).Nodup :=
  (List.take_sublist _ _).nodup
    ((topkIdx_sorted_perm row).symm.nodup (List.nodup_range _))

theorem topkIdx_mem_lt (row : List ℚ) (k : ℕ) (i : ℕ) (hi : i ∈ topkIdx row k) :
    i < row.length := by
  have : i ∈ List.insertionSort (topkRel row) (List.range row.length) :=
    List.mem_of_mem_take hi
  exact List.mem_range.1 ((topkIdx_sorted_perm row).mem_iff.1 this)

theorem topkIdx_take (row : List ℚ) (k maxk : ℕ) (h : k ≤ maxk) :
    (topkIdx row maxk).take k = topkIdx row k := by
  simp [topkIdx, List.take_take, min_eq_left h]

theorem topkIdx_dominates (row : List ℚ) (k : ℕ) (i : ℕ) (hi : i ∈ topkIdx row k)
    (j : ℕ) (hj : j < row.length) (hnj : j ∉ topkIdx row k) :
    row.getD j 0 ≤ row.getD i 0 := by
  have hsorted : List.Pairwise (topkRel row)
      (List.insertionSort (topkRel row) (List.range row.length)) :=
    List.sorted_insertionSort (topkRel row) (List.range row.length)
  have hjmem : j ∈ List.insertionSort (topkRel row) (List.range row.length) :=
    (topkIdx_sorted_perm row).mem_iff.2 (List.mem_range.2 hj)
  rw [← List.take_append_drop k
    (List.insertionSort (topkRel row) (List.range row.length))] at hjmem hsorted
  have hjdrop : j ∈ (List.insertionSort (topkRel row) (List.range row.length)).drop k := by
    rcases List.mem_append.1 hjmem with h | h
    · exact absurd h hnj
    · exact h
  have hrel : topkRel row i j :=
    ((List.pairwise_append.1 hsorted).2.2) i hi j hjdrop
  rcases hrel with h | ⟨h, _⟩
  · exact le_of_lt h
  · exact le_of_eq h.symm

theorem sum_map_ite_countP {α : Type} (q : α → Prop) [DecidablePred q] (l : List α) :
    (l.map (fun x => if q x then (1 : ℕ) else 0)).sum = l.countP (fun x => decide (q x)) := by
  induction l with
  | nil => rfl
  | cons x t ih =>
    by_cases h : q x <;> simp [List.countP_cons, h, ih] <;> omega

/-- Number of `True` entries in row `i` of the transposed comparison matrix of
`accuracy`: for each sample `j`, whether its `i`-th ranked class equals its
target label. -/
def colCnt (ps : List (List ℕ)) (ts : List ℕ) (i : ℕ) : ℕ :=
  (((ps.map (fun prow => prow.getD i 0)).zip ts).map (fun pt => pt.1 == pt.2)).countP id

theorem colCnt_cons (p : List ℕ) (ps : List (List ℕ)) (t : ℕ) (ts : List ℕ) (i : ℕ) :
    colCnt (p :: ps) (t :: ts) i = colCnt ps ts i + (if p.getD i 0 = t then 1 else 0) := by
  simp [colCnt, List.countP_cons]

theorem colCnt_nil_left (ts : List ℕ) (i : ℕ) : colCnt [] ts i = 0 := rfl

theorem colCnt_nil_right (p : List ℕ) (ps : List (List ℕ)) (i : ℕ) :
    colCnt (p :: ps) [] i = 0 := rfl

theorem sum_colCnt_eq (ps : List (List ℕ)) (ts : List ℕ) (k : ℕ) :
    ((List.range k).map (colCnt ps ts)).sum =
      ((ps.zip ts).map (fun pt =>
        ((List.range k).map
          (fun i => if pt.1.getD i 0 = pt.2 then (1 : ℕ) else 0)).sum)).sum := by
  induction ps generalizing ts with
  | nil =>
    have h : colCnt [] ts = fun _ => 0 := funext fun i => colCnt_nil_left ts i
    rw [h]
    simp
  | cons p ps ih =>
    cases ts with
    | nil =>
      have h : colCnt (p :: ps) [] = fun _ => 0 :=
        funext fun i => colCnt_nil_right p ps i
      rw [h]
      simp
    | cons t ts =>
      have hcc : (List.map (colCnt (p :: ps) (t :: ts)) (List.range k)).sum =
          (List.map (fun i => colCnt ps ts i + (if p.getD i 0 = t then 1 else 0))
            (List.range k)).sum :=
        congrArg List.sum (List.map_congr_left (fun i _ => colCnt_cons p ps t ts i))
      rw [hcc, List.sum_map_add]
      simp only [List.zip_cons_cons, List.map_cons, List.sum_cons]
      rw [ih ts]
      omega

theorem sum_ind_getD_eq_count (p : List ℕ) (t : ℕ) (k : ℕ) (hk : k ≤ p.length) :
    ((List.range k).map (fun i => if p.getD i 0 = t then (1 : ℕ) else 0)).sum =
      (p.take k).count t := by
  induction k with
  | zero => simp
  | succ k ih =>
    have hk' : k ≤ p.length := Nat.le_of_succ_le hk
    have hklt : k < p.length := hk
    rw [List.range_succ, List.map_append, List.sum_append, ih hk', List.take_succ,
      List.count_append]
    simp [List.getD_eq_getElem?_getD, List.getElem?_eq_getElem hklt, List.count_cons,
      List.count_nil]

theorem count_take_nodup (p : List ℕ) (t k : ℕ) (hnd : p.Nodup) :
    (p.take k).count t = if t ∈ p.take k then 1 else 0 := by
  by_cases h : t ∈ p.take k
  · simp only [h, if_true]
    exact List.count_eq_one_of_mem ((List.take_sublist _ _).nodup hnd) h
  · simp only [h, if_false]
    exact List.count_eq_zero.2 h

theorem row_ind_sum (row : List ℚ) (t : ℕ) (k maxk : ℕ) (hk : k ≤ maxk)
    (hrow : maxk ≤ row.length) :
    ((List.range k).map
      (fun i => if (topkIdx row maxk).getD i 0 = t then (1 : ℕ) else 0)).sum =
      if t ∈ topkIdx row k then 1 else 0 := by
  have hlen : (topkIdx row maxk).length = maxk := by
    rw [topkIdx_length]; omega
  rw [sum_ind_getD_eq_count _ _ _ (by omega), count_take_nodup _ _ _ (topkIdx_nodup row maxk),
    topkIdx_take row k maxk hk]

/-- The numerator computed by `accuracy` for one `k`: the `correct` matrix of
the source (transpose of per-row top-`maxk` index lists, compared against the
broadcast target), rows `[:k]` flattened and summed. -/
def accuracyCnt (output : List (List ℚ)) (target : List ℕ) (maxk k : ℕ) : ℕ :=
  (((((List.range maxk).map
      (fun i => (output.map (fun row => topkIdx row maxk)).map
        (fun prow => prow.getD i 0))).map
      (fun prow => (prow.zip target).map (fun pt => pt.1 == pt.2))).take k).map
      (fun r => r.countP id)).sum

theorem accuracy_count (output : List (List ℚ)) (target : List ℕ) (k maxk : ℕ)
    (hk : k ≤ maxk) (hcls : ∀ row ∈ output, maxk ≤ row.length) :
    accuracyCnt output target maxk k = countHits output target k := by
  unfold accuracyCnt
  rw [List.map_map, ← List.map_take, List.take_range, min_eq_left hk, List.map_map]
  have h1 : ((fun r : List Bool => r.countP id) ∘
      ((fun prow : List ℕ => (prow.zip target).map (fun pt => pt.1 == pt.2)) ∘
        (fun i => (output.map (fun row => topkIdx row maxk)).map
          (fun prow => prow.getD i 0)))) =
      colCnt (output.map (fun row => topkIdx row maxk)) target := by
    funext i
    rfl
  rw [h1, sum_colCnt_eq, List.zip_map_left, List.map_map]
  have h2 : ∀ rt ∈ output.zip target,
      ((fun pt : List ℕ × ℕ =>
        ((List.range k).map (fun i => if pt.1.getD i 0 = pt.2 then (1 : ℕ) else 0)).sum) ∘
        Prod.map (fun row => topkIdx row maxk) id) rt =
      (fun rt : List ℚ × ℕ => if rt.2 ∈ topkIdx rt.1 k then (1 : ℕ) else 0) rt := by
    intro rt hrt
    have hrow : maxk ≤ rt.1.length := hcls rt.1 (List.of_mem_zip hrt).1
    exact row_ind_sum rt.1 rt.2 k maxk hk hrow
  rw [List.map_congr_left h2,
    sum_map_ite_countP (fun rt : List ℚ × ℕ => rt.2 ∈ topkIdx rt.1 k)]
  rfl

/-- Claim C1: for a score matrix with at least `max(topk)` classes per row and
a target vector of length `batch_size ≥ 1`, `accuracy(output, target, topk)`
returns one value per `k` in `topk`, equal to `100 ·` (number of rows whose
target label appears among the `k` highest-scoring classes of that row)
`/ batch_size`.  The final conjunct substantiates "`k` highest-scoring
classes": `topkIdx row k` consists of `min k C` distinct valid class indices,
each scoring at least as much as every class left out. -/
theorem accuracy_topk_correct (output : List (List ℚ)) (target : List ℕ) (topk : List ℕ)
    (hlen : target.length = output.length)
    (hbatch : 1 ≤ target.length)
    (hcls : ∀ row ∈ output, topk.foldl max 0 ≤ row.length)
    (hne : topk ≠ []) :
    (accuracy output target topk).length = topk.length ∧
    (∀ i, i < topk.length →
      (accuracy output target topk).getD i 0 =
        100 * (countHits output target (topk.getD i 0) : ℚ) / (target.length : ℚ)) ∧
    (∀ row ∈ output, ∀ k : ℕ,
      (topkIdx row k).Nodup ∧
      (topkIdx row k).length = min k row.length ∧
      (∀ i ∈ topkIdx row k, i < row.length) ∧
      (∀ i ∈ topkIdx row k, ∀ j, j < row.length → j ∉ topkIdx row k →
        row.getD j 0 ≤ row.getD i 0)) := by
  have hacc : accuracy output target topk = topk.map (fun k =>
      ((accuracyCnt output target (topk.foldl max 0) k : ℕ) : ℚ) *
        (100 / (target.length : ℚ))) := rfl
  refine ⟨by rw [hacc]; simp, ?_, ?_⟩
  · intro i hi
    rw [hacc, List.getD_eq_getElem?_getD, List.getElem?_map, List.getElem?_eq_getElem hi]
    simp only [Option.map_some', Option.getD_some]
    rw [accuracy_count output target topk[i] (topk.foldl max 0)
      (mem_le_foldl_max topk 0 topk[i] (List.getElem_mem hi)) hcls]
    rw [mul_comm, div_mul_eq_mul_div]
    congr 2
    rw [List.getD_eq_getElem?_getD, List.getElem?_eq_getElem hi, Option.getD_some]
  · intro row hrow k
    exact ⟨topkIdx_nodup row k, topkIdx_length row k,
      fun i hi => topkIdx_mem_lt row k i hi,
      fun i hi j hj hnj => topkIdx_dominates row k i hi j hj hnj⟩

/-- Witness for `accuracy_topk_correct` at a concrete input: a batch of two
samples with three classes, evaluated at `topk = (1, 2)`. -/
theorem accuracy_topk_correct_witness :
    (accuracy [[1, 5, 3], [2, 1, 0]] [1, 0] [1, 2]).length = ([1, 2] : List ℕ).length ∧
    (∀ i, i < ([1, 2] : List ℕ).length →
      (accuracy [[1, 5, 3], [2, 1, 0]] [1, 0] [1, 2]).getD i 0 =
        100 * (countHits [[1, 5, 3], [2, 1, 0]] [1, 0] (([1, 2] : List ℕ).getD i 0) : ℚ) /
          (([1, 0] : List ℕ).length : ℚ)) ∧
    (∀ row ∈ ([[1, 5, 3], [2, 1, 0]] : List (List ℚ)), ∀ k : ℕ,
      (topkIdx row k).Nodup ∧
      (topkIdx row k).length = min k row.length ∧
      (∀ i ∈ topkIdx row k, i < row.length) ∧
      (∀ i ∈ topkIdx row k, ∀ j, j < row.length → j ∉ topkIdx row k →
        row.getD j 0 ≤ row.getD i 0)) :=
  accuracy_topk_correct [[1, 5, 3], [2, 1, 0]] [1, 0] [1, 2] (by decide) (by decide)
    (by decide) (by decide)

/-- Counterexample to claim C5: the `avg` produced by an `AverageMeter.update`
call does depend on the meter's prior updates.  Two meters receive the same
final call `update(1, 1)`, but the one that saw an earlier `update(3, 1)`
reports `avg = 2` while the fresh one reports `avg = 1`. -/
theorem averageMeter_not_stateless_cex :
    (((AverageMeter.init "m").update 3 1).update 1 1).avg ≠
      ((AverageMeter.init "m").update 1 1).avg := by
  norm_num [AverageMeter.init, AverageMeter.reset, AverageMeter.update]

/-- Claim C5 as amended: `accuracy` is pure — two invocations with identical
arguments yield identical results — and `AverageMeter.update` sets `val` from
the current call alone, but the `avg` it produces depends on the meter's
prior state: it equals `(prior sum + v·n) / (prior count + n)`. -/
theorem utility_statelessness_corrected :
    (∀ (o₁ o₂ : List (List ℚ)) (t₁ t₂ : List ℕ) (k₁ k₂ : List ℕ),
      o₁ = o₂ → t₁ = t₂ → k₁ = k₂ → accuracy o₁ t₁ k₁ = accuracy o₂ t₂ k₂) ∧
    (∀ (m : AverageMeter) (v : ℚ) (n : ℕ), (m.update v n).val = v) ∧
    (∀ (m : AverageMeter) (v : ℚ) (n : ℕ),
      (m.update v n).avg = (m.sum + v * (n : ℚ)) / (m.count + (n : ℚ))) := by
  refine ⟨?_, fun m v n => rfl, fun m v n => rfl⟩
  intro o₁ o₂ t₁ t₂ k₁ k₂ ho ht hk
  rw [ho, ht, hk]

/-- Witness for `utility_statelessness_corrected` at concrete inputs. -/
theorem utility_statelessness_corrected_witness :
    accuracy [[1, 2]] [0] [1] = accuracy [[1, 2]] [0] [1] ∧
    ((AverageMeter.init "m").update 7 2).val = 7 ∧
    ((AverageMeter.init "m").update 7 2).avg =
      ((AverageMeter.init "m").sum + 7 * ((2 : ℕ) : ℚ)) /
        ((AverageMeter.init "m").count + ((2 : ℕ) : ℚ)) :=
  ⟨utility_statelessness_corrected.1 [[1, 2]] [[1, 2]] [0] [0] [1] [1] rfl rfl rfl,
   utility_statelessness_corrected.2.1 (AverageMeter.init "m") 7 2,
   utility_statelessness_corrected.2.2 (AverageMeter.init "m") 7 2⟩

/-- Truncation to 32 bits, the `& 0xffffffff` of CPython's Mersenne twister. -/
def mask32 (x : ℕ) : ℕ := x % 4294967296

/-- `init_genrand` of CPython's `_randommodule.c`. -/
def mtInitGenrand (s : ℕ) : Array ℕ :=
  (List.range 623).foldl
    (fun a j =>
      let p := a.getD j 0
      a.set! (j + 1) (mask32 (1812433253 * (p ^^^ (p >>> 30)) + (j + 1))))
    ((Array.mkArray 624 0).set! 0 (mask32 s))

/-- One iteration of the first mixing loop of `init_by_array`: state is
`(mt, i, j)`. -/
def mtMix1 (key : List ℕ) (st : Array ℕ × ℕ × ℕ) : Array ℕ × ℕ × ℕ :=
  let a := st.1
  let i := st.2.1
  let j := st.2.2
  let p := a.getD (i - 1) 0
  let v := mask32 ((a.getD i 0 ^^^ mask32 ((p ^^^ (p >>> 30)) * 1664525)) + key.getD j 0 + j)
  let a := a.set! i v
  let i := i + 1
  let aw := if 624 ≤ i then a.set! 0 (a.getD 623 0) else a
  let iw := if 624 ≤ i then 1 else i
  let jw := if key.length ≤ j + 1 then 0 else j + 1
  (aw, iw, jw)

/-- One iteration of the second mixing loop of `init_by_array`: state is
`(mt, i)`.  The C code computes `mt[i] - i` in 32-bit arithmetic, modelled as
adding `2^32 - i` before truncation. -/
def mtMix2 (st : Array ℕ × ℕ) : Array ℕ × ℕ :=
  let a := st.1
  let i := st.2
  let p := a.getD (i - 1) 0
  let v := mask32 ((a.getD i 0 ^^^ mask32 ((p ^^^ (p >>> 30)) * 1566083941)) + (4294967296 - i))
  let a := a.set! i v
  let i := i + 1
  if 624 ≤ i then (a.set! 0 (a.getD 623 0), 1) else (a, i)

/-- `init_by_array` of CPython's Mersenne twister; `random.Random(seed)` for a
nonnegative integer seed below `2^32` uses `key = [seed]`. -/
def mtInitByArray (key : List ℕ) : Array ℕ :=
  let a0 := mtInitGenrand 19650218
  let kmax := max 624 key.length
  let s1 := (List.range kmax).foldl (fun st _ => mtMix1 key st) (a0, 1, 0)
  let s2 := (List.range 623).foldl (fun st _ => mtMix2 st) (s1.1, s1.2.1)
  s2.1.set! 0 2147483648

/-- One step of the state refill of `genrand_uint32`, performed in place with
wrap-around indexing exactly as the C loops read and write the buffer. -/
def mtTwistStep (a : Array ℕ) (kk : ℕ) : Array ℕ :=
  let y := (a.getD kk 0 &&& 2147483648) ||| (a.getD ((kk + 1) % 624) 0 &&& 2147483647)
  a.set! kk (a.getD ((kk + 397) % 624) 0 ^^^ (y >>> 1) ^^^ (if y % 2 = 1 then 2567483615 else 0))

/-- The full 624-word refill. -/
def mtTwist (a : Array ℕ) : Array ℕ := (List.range 624).foldl mtTwistStep a

/-- Generator state: the 624-word buffer and the read index, which is 624
right after seeding so that the first draw triggers a refill. -/
structure MTGen where
  mt : Array ℕ
  mti : ℕ

/-- `genrand_uint32`: refill when exhausted, then temper and emit one word. -/
def mtNext (g : MTGen) : ℕ × MTGen :=
  let a := if 624 ≤ g.mti then mtTwist g.mt else g.mt
  let i := if 624 ≤ g.mti then 0 else g.mti
  let y := a.getD i 0
  let y := y ^^^ (y >>> 11)
  let y := y ^^^ ((y <<< 7) &&& 2636928640)
  let y := y ^^^ ((y <<< 15) &&& 4022730752)
  let y := y ^^^ (y >>> 18)
  (y, ⟨a, i + 1⟩)

/-- `getrandbits(k)` for `0 < k ≤ 32`: the top `k` bits of one word. -/
def mtGetrandbits (k : ℕ) (g : MTGen) : ℕ × MTGen :=
  let r := mtNext g
  (r.1 >>> (32 - k), r.2)

/-- `Random._randbelow_with_getrandbits(n)`: draw `n.bit_length()` bits and
reject until the draw is below `n`.  CPython loops unboundedly; the model
carries fuel, ample for every concrete use, and the shuffle theorems below
hold for every draw sequence regardless of fuel. -/
def mtRandbelow (fuel : ℕ) (n : ℕ) (g : MTGen) : ℕ × MTGen :=
  match fuel with
  | 0 => (0, g)
  | f + 1 =>
    let k := if n = 0 then 0 else Nat.log2 n + 1
    let r := mtGetrandbits k g
    if r.1 < n then (r.1, r.2) else mtRandbelow f n r.2

/-- One iteration of `random.shuffle`'s loop body:
`j = _randbelow(i + 1); x[i], x[j] = x[j], x[i]`. -/
def shuffleStep (st : List ℕ × MTGen) (i : ℕ) : List ℕ × MTGen :=
  let l := st.1
  let j := (mtRandbelow 64 (i + 1) st.2).1
  let g := (mtRandbelow 64 (i + 1) st.2).2
  ((l.set i (l.getD j 0)).set j (l.getD i 0), g)

/-- `random.Random(seed).shuffle(x)`: Fisher-Yates from the top index down. -/
def pyShuffle (seed : ℕ) (l : List ℕ) : List ℕ :=
  ((List.range' 1 (l.length - 1)).reverse.foldl shuffleStep
    (l, ⟨mtInitByArray [seed], 624⟩)).1

/-- The train/val index split of `main_worker` (lines 168-176): shuffle
`range(N)` with `random.Random(10)`, keep the first
`num_train = num_train0 - num_val` positions as training indices and — as
written in the source — the whole rest of the permutation as validation
indices.  `int(train_percent * N / 100)` and `int(0.1 * num_train)` go
through CPython doubles; for every value the script can produce
(`N ≤ 50000`, `train_percent ∈ {1, 10, 100}`) they equal the exact floors
used here. -/
def trainValSplit (N trainPercent : ℕ) : List ℕ × List ℕ :=
  let numTrain0 := trainPercent * N / 100
  let train_idx := pyShuffle 10 (List.range N)
  let numVal := numTrain0 / 10
  let numTrain := numTrain0 - numVal
  (train_idx.take numTrain, train_idx.drop numTrain)

theorem mtRandbelow_lt (fuel n : ℕ) (g : MTGen) (hn : 1 ≤ n) :
    (mtRandbelow fuel n g).1 < n := by
  induction fuel generalizing g with
  | zero => simpa [mtRandbelow] using hn
  | succ f ih =>
    rw [mtRandbelow]
    split
    · rename_i h
      exact absurd h (by omega)
    · split
      · assumption
      · exact ih _

theorem swap_cons_perm (t : List ℕ) (k : ℕ) (a : ℕ) (hk : k < t.length) :
    (t.getD k 0 :: t.set k a).Perm (a :: t) := by
  induction t generalizing k with
  | nil => simp at hk
  | cons b s ih =>
    cases k with
    | zero => simpa using List.Perm.swap a b s
    | succ k =>
      have hk' : k < s.length := by simpa using hk
      exact (List.Perm.swap b (s.getD k 0) (s.set k a)).trans
        (((ih k hk').cons b).trans (List.Perm.swap a b s))

theorem swap_perm (l : List ℕ) (i j : ℕ) (hi : i < l.length) (hj : j < l.length) :
    ((l.set i (l.getD j 0)).set j (l.getD i 0)).Perm l := by
  induction l generalizing i j with
  | nil => simp at hi
  | cons b t ih =>
    cases i with
    | zero =>
      cases j with
      | zero => simp
      | succ j =>
        have hj' : j < t.length := by simpa using hj
        simpa using swap_cons_perm t j b hj'
    | succ i =>
      have hi' : i < t.length := by simpa using hi
      cases j with
      | zero => simpa using swap_cons_perm t i b hi'
      | succ j =>
        have hj' : j < t.length := by simpa using hj
        simpa using (ih i j hi' hj').cons b

theorem shuffleFold_perm (idxs : List ℕ) (l0 : List ℕ) :
    ∀ (l : List ℕ) (g : MTGen), l.Perm l0 → (∀ i ∈ idxs, i < l0.length) →
      ((idxs.foldl shuffleStep (l, g)).1).Perm l0 := by
  induction idxs with
  | nil => intro l g hp _; exact hp
  | cons i t ih =>
    intro l g hp hb
    rw [List.foldl_cons]
    have hi : i < l.length := by
      rw [hp.length_eq]; exact hb i (List.mem_cons_self i t)
    have hj : (mtRandbelow 64 (i + 1) g).1 < l.length := by
      have h1 := mtRandbelow_lt 64 (i + 1) g (by omega)
      have h2 := hb i (List.mem_cons_self i t)
      rw [hp.length_eq]
      omega
    have hstep : shuffleStep (l, g) i =
        ((l.set i (l.getD (mtRandbelow 64 (i + 1) g).1 0)).set (mtRandbelow 64 (i + 1) g).1
          (l.getD i 0), (mtRandbelow 64 (i + 1) g).2) := rfl
    rw [hstep]
    exact ih _ _ ((swap_perm l i (mtRandbelow 64 (i + 1) g).1 hi hj).trans hp)
      (fun x hx => hb x (List.mem_cons_of_mem i hx))

theorem pyShuffle_perm (seed : ℕ) (l : List ℕ) : (pyShuffle seed l).Perm l := by
  unfold pyShuffle
  apply shuffleFold_perm _ l _ _ (List.Perm.refl l)
  intro i hi
  rw [List.mem_reverse] at hi
  have h := List.mem_range'_1.1 hi
  omega

theorem pyShuffle_range_length (seed N : ℕ) :
    (pyShuffle seed (List.range N)).length = N := by
  rw [(pyShuffle_perm seed (List.range N)).length_eq, List.length_range]

theorem pyShuffle_range_nodup (seed N : ℕ) : (pyShuffle seed (List.range N)).Nodup :=
  (pyShuffle_perm seed (List.range N)).symm.nodup (List.nodup_range N)

/-- Claim C7 as amended.  The split is deterministic — it is a pure function
of `N` and `train_percent` built on the fixed seed 10, so every spawned
worker computes the identical result — and `train_idx`/`val_idx` are
disjoint.  But `val_idx = train_idx[num_train:]` keeps the **whole
remainder** of the shuffled permutation: the two lists concatenate to the
entire permutation of `range(N)` (not to its first `num_train0` entries),
and the validation set has `N - num_train` elements (not
`floor(0.1·num_train0)`); the two descriptions agree only when
`train_percent = 100`. -/
theorem train_val_split_corrected (N p : ℕ) :
    trainValSplit N p = trainValSplit N p ∧
    (trainValSplit N p).1.Disjoint (trainValSplit N p).2 ∧
    (trainValSplit N p).1 ++ (trainValSplit N p).2 = pyShuffle 10 (List.range N) ∧
    ((trainValSplit N p).1 ++ (trainValSplit N p).2).Perm (List.range N) ∧
    (trainValSplit N p).1.length = min (p * N / 100 - p * N / 100 / 10) N ∧
    (trainValSplit N p).2.length = N - (p * N / 100 - p * N / 100 / 10) := by
  have hsplit : trainValSplit N p =
      ((pyShuffle 10 (List.range N)).take (p * N / 100 - p * N / 100 / 10),
       (pyShuffle 10 (List.range N)).drop (p * N / 100 - p * N / 100 / 10)) := rfl
  refine ⟨rfl, ?_, ?_, ?_, ?_, ?_⟩
  · rw [hsplit]
    exact List.disjoint_take_drop (pyShuffle_range_nodup 10 N) le_rfl
  · rw [hsplit]
    exact List.take_append_drop _ _
  · rw [hsplit, List.take_append_drop _ _]
    exact pyShuffle_perm 10 (List.range N)
  · rw [hsplit]
    simp [List.length_take, pyShuffle_range_length]
  · rw [hsplit]
    simp [List.length_drop, pyShuffle_range_length]

/-- Counterexample to claim C7 as stated: at `N = 20`, `train_percent = 10`
the claim predicts a validation set of `floor(0.1·floor(10·20/100)) = 0`
elements whose union with the training set is the first
`floor(10·20/100) = 2` entries of the permutation, but the code keeps the
entire remainder of the permutation: 18 validation indices, with the
train/val union being the whole 20-element permutation. -/
theorem train_val_split_cex :
    (trainValSplit 20 10).2.length = 18 ∧
    (10 * 20 / 100 : ℕ) / 10 = 0 ∧
    (18 : ℕ) ≠ 0 ∧
    ((trainValSplit 20 10).1 ++ (trainValSplit 20 10).2).length = 20 ∧
    (20 : ℕ) ≠ 10 * 20 / 100 := by
  have hsplit : trainValSplit 20 10 =
      ((pyShuffle 10 (List.range 20)).take 2, (pyShuffle 10 (List.range 20)).drop 2) := rfl
  refine ⟨?_, by norm_num, by norm_num, ?_, by norm_num⟩
  · rw [hsplit]
    simp [List.length_drop, pyShuffle_range_length]
  · rw [hsplit, List.take_append_drop _ _, pyShuffle_range_length]

/-- The pair of `argparse.Namespace(top1=…, top5=…)` records holding best
accuracies (lines 139-140). -/
structure BestAcc where
  top1 : ℚ
  top5 : ℚ

/-- One epoch's rank-0 evaluation results: validation and test top-1/top-5
accuracies (the four `AverageMeter` averages of lines 221-238). -/
structure EpochAcc where
  val1 : ℚ
  val5 : ℚ
  test1 : ℚ
  test5 : ℚ

/-- Lines 240-246: `best_val_acc.top1 = max(...)` is commented out, but
`best_val_acc.top5` is maxed unconditionally; when this epoch's validation
top-1 strictly exceeds the stored best, `best_val_acc.top1` is replaced by it
and both test records are maxed with this epoch's test accuracies. -/
def updateBestAcc (bv bt : BestAcc) (e : EpochAcc) : BestAcc × BestAcc :=
  let bv5 : BestAcc := { bv with top5 := max bv.top5 e.val5 }
  if bv5.top1 < e.val1 then
    ({ bv5 with top1 := e.val1 }, ⟨max bt.top1 e.test1, max bt.top5 e.test5⟩)
  else (bv5, bt)

/-- The best-accuracy state after a sequence of epochs. -/
def foldBestAcc (bv bt : BestAcc) (es : List EpochAcc) : BestAcc × BestAcc :=
  es.foldl (fun p e => updateBestAcc p.1 p.2 e) (bv, bt)

theorem updateBestAcc_top1 (bv bt : BestAcc) (e : EpochAcc) :
    (updateBestAcc bv bt e).1.top1 = max bv.top1 e.val1 := by
  unfold updateBestAcc
  by_cases h : bv.top1 < e.val1
  · simp only [h, if_true]
    exact (max_eq_right (le_of_lt h)).symm
  · simp only [h, if_false]
    exact (max_eq_left (not_lt.1 h)).symm

theorem updateBestAcc_top5 (bv bt : BestAcc) (e : EpochAcc) :
    (updateBestAcc bv bt e).1.top5 = max bv.top5 e.val5 := by
  unfold updateBestAcc
  by_cases h : bv.top1 < e.val1 <;> simp [h]

theorem updateBestAcc_test (bv bt : BestAcc) (e : EpochAcc) :
    (updateBestAcc bv bt e).2 =
      if bv.top1 < e.val1 then (⟨max bt.top1 e.test1, max bt.top5 e.test5⟩ : BestAcc)
      else bt := by
  unfold updateBestAcc
  by_cases h : bv.top1 < e.val1 <;> simp [h]

theorem foldBestAcc_top1 (bv bt : BestAcc) (es : List EpochAcc) :
    (foldBestAcc bv bt es).1.top1 = es.foldl (fun m e => max m e.val1) bv.top1 := by
  induction es generalizing bv bt with
  | nil => rfl
  | cons e t ih =>
    show (foldBestAcc (updateBestAcc bv bt e).1 (updateBestAcc bv bt e).2 t).1.top1 = _
    rw [ih, List.foldl_cons, updateBestAcc_top1]

theorem foldBestAcc_top5 (bv bt : BestAcc) (es : List EpochAcc) :
    (foldBestAcc bv bt es).1.top5 = es.foldl (fun m e => max m e.val5) bv.top5 := by
  induction es generalizing bv bt with
  | nil => rfl
  | cons e t ih =>
    show (foldBestAcc (updateBestAcc bv bt e).1 (updateBestAcc bv bt e).2 t).1.top5 = _
    rw [ih, List.foldl_cons, updateBestAcc_top5]

theorem le_foldl_max_rat (es : List EpochAcc) (f : EpochAcc → ℚ) (a : ℚ) :
    a ≤ es.foldl (fun m e => max m (f e)) a := by
  induction es generalizing a with
  | nil => simp
  | cons e t ih => exact le_trans (le_max_left a (f e)) (ih (max a (f e)))

/-- Claim C8: across epochs, `best_val_acc.top1` and `best_val_acc.top5` are
the running maxima of the per-epoch validation top-1/top-5 accuracies (hence
never decrease), while the `best_test_acc` record is touched only in an epoch
whose validation top-1 strictly exceeds the stored best, and is then the
componentwise max of its old value and that epoch's test accuracies. -/
theorem best_acc_invariants (bv bt : BestAcc) (es : List EpochAcc) :
    (foldBestAcc bv bt es).1.top1 = es.foldl (fun m e => max m e.val1) bv.top1 ∧
    (foldBestAcc bv bt es).1.top5 = es.foldl (fun m e => max m e.val5) bv.top5 ∧
    bv.top1 ≤ (foldBestAcc bv bt es).1.top1 ∧
    bv.top5 ≤ (foldBestAcc bv bt es).1.top5 ∧
    (∀ e : EpochAcc, (updateBestAcc bv bt e).2 =
      if bv.top1 < e.val1 then (⟨max bt.top1 e.test1, max bt.top5 e.test5⟩ : BestAcc)
      else bt) :=
  ⟨foldBestAcc_top1 bv bt es, foldBestAcc_top5 bv bt es,
   (foldBestAcc_top1 bv bt es) ▸ le_foldl_max_rat es (fun e => e.val1) bv.top1,
   (foldBestAcc_top5 bv bt es) ▸ le_foldl_max_rat es (fun e => e.val5) bv.top5,
   fun e => updateBestAcc_test bv bt e⟩

/-- The JSON record dumped at the end of every epoch (lines 249-253), field
for field as the source builds it — in particular `best_val_acc5` is
assigned `best_test_acc.top5`. -/
structure EpochStatsRec where
  epoch : ℕ
  val_acc1 : ℚ
  val_acc5 : ℚ
  best_val_acc1 : ℚ
  best_val_acc5 : ℚ
  test_acc1 : ℚ
  test_acc5 : ℚ
  best_test_acc1 : ℚ
  best_test_acc5 : ℚ

/-- Lines 249-251: the `stats` dict, built from this epoch's meters and the
(already updated) best-accuracy records. -/
def epochStatsRec (epoch : ℕ) (e : EpochAcc) (bv bt : BestAcc) : EpochStatsRec :=
  ⟨epoch, e.val1, e.val5, bv.top1, bt.top5, e.test1, e.test5, bt.top1, bt.top5⟩

/-- The whole rank-0 end-of-epoch reporting step: update the best accuracies
(lines 240-246), then dump the record (lines 249-253). -/
def rank0EpochReport (epoch : ℕ) (bv bt : BestAcc) (e : EpochAcc) :
    EpochStatsRec × BestAcc × BestAcc :=
  let p := updateBestAcc bv bt e
  (epochStatsRec epoch e p.1 p.2, p.1, p.2)

/-- Claim C4 fails on the code: in the very first epoch, with validation
accuracies (top1, top5) = (50, 90) and test accuracies (40, 80), the emitted
`best_val_acc5` field is 80 — `best_test_acc.top5` — whereas the maximum
validation top-5 accuracy observed so far (kept in `best_val_acc.top5`,
line 241) is 90.  The record's other `best_` fields do match their
registers. -/
theorem stats_best_val_acc5_bug :
    (rank0EpochReport 0 ⟨0, 0⟩ ⟨0, 0⟩ ⟨50, 90, 40, 80⟩).1.best_val_acc5 = 80 ∧
    (foldBestAcc ⟨0, 0⟩ ⟨0, 0⟩ [⟨50, 90, 40, 80⟩]).1.top5 = 90 ∧
    ((80 : ℚ) ≠ 90) ∧
    (rank0EpochReport 0 ⟨0, 0⟩ ⟨0, 0⟩ ⟨50, 90, 40, 80⟩).1.best_val_acc1 = 50 ∧
    (rank0EpochReport 0 ⟨0, 0⟩ ⟨0, 0⟩ ⟨50, 90, 40, 80⟩).1.best_test_acc1 = 40 ∧
    (rank0EpochReport 0 ⟨0, 0⟩ ⟨0, 0⟩ ⟨50, 90, 40, 80⟩).1.best_test_acc5 = 80 := by
  have hupd : updateBestAcc ⟨0, 0⟩ ⟨0, 0⟩ ⟨50, 90, 40, 80⟩ =
      (⟨50, 90⟩, ⟨40, 80⟩) := by
    unfold updateBestAcc
    norm_num
  refine ⟨?_, ?_, by norm_num, ?_, ?_, ?_⟩ <;>
    simp [rank0EpochReport, foldBestAcc, epochStatsRec, hupd]

/-- Contents of `checkpoint.pth` (lines 264-266): the epoch to resume from,
the two best-accuracy records, and the model/optimizer/scheduler state dicts
(abstract types `M`, `O`, `S`). -/
structure Checkpoint (M O S : Type) where
  epoch : ℕ
  best_val_acc : BestAcc
  best_test_acc : BestAcc
  model : M
  optimizer : O
  scheduler : S

/-- The variables `main_worker` holds after the resume block. -/
structure WorkerInit (M O S : Type) where
  start_epoch : ℕ
  best_val_acc : BestAcc
  best_test_acc : BestAcc
  model : M
  optimizer : O
  scheduler : S

/-- Lines 127-140: if `checkpoint_dir / 'checkpoint.pth'` exists, restore
`start_epoch`, both best-accuracy records and the three state dicts from it;
otherwise start at epoch 0 with both records `Namespace(top1=0, top5=0)` and
the freshly built states. -/
def resumeFromCheckpoint {M O S : Type} (ck : Option (Checkpoint M O S))
    (m : M) (o : O) (s : S) : WorkerInit M O S :=
  match ck with
  | some c => ⟨c.epoch, c.best_val_acc, c.best_test_acc, c.model, c.optimizer, c.scheduler⟩
  | none => ⟨0, ⟨0, 0⟩, ⟨0, 0⟩, m, o, s⟩

/-- Training state threaded through the epoch loop. -/
structure TrainProgress (M O S : Type) where
  model : M
  optimizer : O
  scheduler : S
  best_val_acc : BestAcc
  best_test_acc : BestAcc

/-- The checkpoint rank 0 writes after finishing `epoch` (lines 263-267): its
`epoch` field is `epoch + 1`. -/
def saveCheckpoint {M O S : Type} (epoch : ℕ) (t : TrainProgress M O S) :
    Checkpoint M O S :=
  ⟨epoch + 1, t.best_val_acc, t.best_test_acc, t.model, t.optimizer, t.scheduler⟩

/-- The epoch loop `for epoch in range(start_epoch, args.epochs)`
(lines 190-267) at checkpoint granularity: each completed epoch transforms
the training state by an arbitrary per-epoch step and overwrites
`checkpoint.pth` with `saveCheckpoint epoch`. -/
def runEpochs {M O S : Type} (step : ℕ → TrainProgress M O S → TrainProgress M O S)
    (start count : ℕ) (t : TrainProgress M O S) (ck : Option (Checkpoint M O S)) :
    TrainProgress M O S × Option (Checkpoint M O S) :=
  (List.range' start count).foldl
    (fun p e => (step e p.1, some (saveCheckpoint e (step e p.1)))) (t, ck)

theorem runEpochs_last_ckpt {M O S : Type}
    (step : ℕ → TrainProgress M O S → TrainProgress M O S) :
    ∀ (count start : ℕ) (t : TrainProgress M O S) (ck : Option (Checkpoint M O S)),
      1 ≤ count →
      (runEpochs step start count t ck).2 =
        some (saveCheckpoint (start + count - 1) (runEpochs step start count t ck).1) := by
  intro count
  induction count with
  | zero => intro start t ck h; omega
  | succ c ih =>
    intro start t ck _
    cases Nat.eq_zero_or_pos c with
    | inl hc =>
      subst hc
      simp [runEpochs, List.range'_succ]
    | inr hc =>
      have hstep : runEpochs step start (c + 1) t ck =
          runEpochs step (start + 1) c (step start t)
            (some (saveCheckpoint start (step start t))) := by
        simp [runEpochs, List.range'_succ]
      have harith : start + 1 + c - 1 = start + (c + 1) - 1 := by omega
      rw [hstep, ih (start + 1) (step start t) _ hc, harith]

/-- Claim C3: with no checkpoint present the worker starts at epoch 0 with
both best-accuracy records zeroed; when a run from epoch 0 completes `count`
epochs (each saving `epoch + 1`), resuming from the saved checkpoint restores
every stored field and starts at epoch `count` — the first epoch that was not
completed (every epoch below it was completed, and it was not). -/
theorem checkpoint_resume_spec {M O S : Type} (m : M) (o : O) (s : S)
    (step : ℕ → TrainProgress M O S → TrainProgress M O S)
    (count : ℕ) (t0 : TrainProgress M O S) (hc : 1 ≤ count) :
    resumeFromCheckpoint (none : Option (Checkpoint M O S)) m o s =
      ⟨0, ⟨0, 0⟩, ⟨0, 0⟩, m, o, s⟩ ∧
    (∀ c : Checkpoint M O S, resumeFromCheckpoint (some c) m o s =
      ⟨c.epoch, c.best_val_acc, c.best_test_acc, c.model, c.optimizer, c.scheduler⟩) ∧
    (∃ c : Checkpoint M O S,
      (runEpochs step 0 count t0 none).2 = some c ∧
      c.epoch = count ∧
      (resumeFromCheckpoint (some c) m o s).start_epoch = count ∧
      (resumeFromCheckpoint (some c) m o s).model = (runEpochs step 0 count t0 none).1.model ∧
      (resumeFromCheckpoint (some c) m o s).optimizer =
        (runEpochs step 0 count t0 none).1.optimizer ∧
      (resumeFromCheckpoint (some c) m o s).scheduler =
        (runEpochs step 0 count t0 none).1.scheduler ∧
      (resumeFromCheckpoint (some c) m o s).best_val_acc =
        (runEpochs step 0 count t0 none).1.best_val_acc ∧
      (resumeFromCheckpoint (some c) m o s).best_test_acc =
        (runEpochs step 0 count t0 none).1.best_test_acc ∧
      count ∉ List.range' 0 count ∧
      (∀ e, e < count → e ∈ List.range' 0 count)) := by
  refine ⟨rfl, fun c => rfl, ?_⟩
  refine ⟨saveCheckpoint (0 + count - 1) (runEpochs step 0 count t0 none).1,
    runEpochs_last_ckpt step count 0 t0 none hc, by simp [saveCheckpoint]; omega,
    by simp [resumeFromCheckpoint, saveCheckpoint]; omega,
    rfl, rfl, rfl, rfl, rfl, ?_, ?_⟩
  · intro hmem
    have := List.mem_range'_1.1 hmem
    omega
  · intro e he
    exact List.mem_range'_1.2 ⟨Nat.zero_le e, by omega⟩

/-- Witness for `checkpoint_resume_spec`: one completed epoch with concrete
states over `ℕ`. -/
theorem checkpoint_resume_spec_witness :
    resumeFromCheckpoint (none : Option (Checkpoint ℕ ℕ ℕ)) 1 2 3 =
      ⟨0, ⟨0, 0⟩, ⟨0, 0⟩, 1, 2, 3⟩ ∧
    (∀ c : Checkpoint ℕ ℕ ℕ, resumeFromCheckpoint (some c) 1 2 3 =
      ⟨c.epoch, c.best_val_acc, c.best_test_acc, c.model, c.optimizer, c.scheduler⟩) ∧
    (∃ c : Checkpoint ℕ ℕ ℕ,
      (runEpochs (fun _ t => t) 0 1 ⟨4, 5, 6, ⟨0, 0⟩, ⟨0, 0⟩⟩ none).2 = some c ∧
      c.epoch = 1 ∧
      (resumeFromCheckpoint (some c) 1 2 3).start_epoch = 1 ∧
      (resumeFromCheckpoint (some c) 1 2 3).model =
        (runEpochs (fun _ t => t) 0 1 ⟨4, 5, 6, ⟨0, 0⟩, ⟨0, 0⟩⟩ none).1.model ∧
      (resumeFromCheckpoint (some c) 1 2 3).optimizer =
        (runEpochs (fun _ t => t) 0 1 ⟨4, 5, 6, ⟨0, 0⟩, ⟨0, 0⟩⟩ none).1.optimizer ∧
      (resumeFromCheckpoint (some c) 1 2 3).scheduler =
        (runEpochs (fun _ t => t) 0 1 ⟨4, 5, 6, ⟨0, 0⟩, ⟨0, 0⟩⟩ none).1.scheduler ∧
      (resumeFromCheckpoint (some c) 1 2 3).best_val_acc =
        (runEpochs (fun _ t => t) 0 1 ⟨4, 5, 6, ⟨0, 0⟩, ⟨0, 0⟩⟩ none).1.best_val_acc ∧
      (resumeFromCheckpoint (some c) 1 2 3).best_test_acc =
        (runEpochs (fun _ t => t) 0 1 ⟨4, 5, 6, ⟨0, 0⟩, ⟨0, 0⟩⟩ none).1.best_test_acc ∧
      (1 : ℕ) ∉ List.range' 0 1 ∧
      (∀ e, e < 1 → e ∈ List.range' 0 1)) :=
  checkpoint_resume_spec 1 2 3 (fun _ t => t) 1 ⟨4, 5, 6, ⟨0, 0⟩, ⟨0, 0⟩⟩ (by decide)

/-- Modelled semantics of one training epoch in `--weights freeze` mode.  The
optimizer's parameter groups contain only `fc.weight` and `fc.bias`
(lines 111-124, the backbone group is added only for `finetune`),
`requires_grad` is off for every other parameter (lines 108-110), and the
model is kept in `eval()` mode during training (lines 192-195) so batch-norm
buffers are not updated either.  Hence one epoch replaces the values of the
two classifier entries of the state dict by whatever SGD computes (the
arbitrary `upd`) and leaves every other entry untouched. -/
def freezeEpochStep (upd : String → ℚ) (sd : String → ℚ) : String → ℚ :=
  fun k => if k = "fc.weight" ∨ k = "fc.bias" then upd k else sd k

/-- The state dict after a sequence of freeze-mode epochs. -/
def freezeRun (upds : List (String → ℚ)) (sd : String → ℚ) : String → ℚ :=
  upds.foldl (fun s u => freezeEpochStep u s) sd

/-- Claim C6: in `--weights freeze` mode only `fc.weight` and `fc.bias` ever
change, so when the loaded model agreed with the pretrained reference on
every reference key (none of which is a classifier key, by the assert of
line 104), the per-epoch sanity check of lines 255-260 holds after every
epoch: each reference tensor still equals the model's. -/
theorem freeze_frame_spec (upds : List (String → ℚ)) (sd ref : String → ℚ)
    (refKeys : List String)
    (hw : "fc.weight" ∉ refKeys) (hb : "fc.bias" ∉ refKeys)
    (hload : ∀ k ∈ refKeys, sd k = ref k) :
    (∀ k, k ≠ "fc.weight" → k ≠ "fc.bias" → freezeRun upds sd k = sd k) ∧
    (∀ k ∈ refKeys, freezeRun upds sd k = ref k) := by
  have hframe : ∀ (us : List (String → ℚ)) (d : String → ℚ) (k : String),
      k ≠ "fc.weight" → k ≠ "fc.bias" → freezeRun us d k = d k := by
    intro us
    induction us with
    | nil => intro d k _ _; rfl
    | cons u t ih =>
      intro d k h1 h2
      show freezeRun t (freezeEpochStep u d) k = d k
      rw [ih (freezeEpochStep u d) k h1 h2]
      simp [freezeEpochStep, h1, h2]
  refine ⟨fun k h1 h2 => hframe upds sd k h1 h2, fun k hk => ?_⟩
  have h1 : k ≠ "fc.weight" := fun h => hw (h ▸ hk)
  have h2 : k ≠ "fc.bias" := fun h => hb (h ▸ hk)
  rw [hframe upds sd k h1 h2]
  exact hload k hk

/-- Witness for `freeze_frame_spec` with one epoch and one backbone key. -/
theorem freeze_frame_spec_witness :
    (∀ k, k ≠ "fc.weight" → k ≠ "fc.bias" →
      freezeRun [fun _ => 5] (fun _ => 1) k = (fun _ : String => (1 : ℚ)) k) ∧
    (∀ k ∈ ["conv1.weight"], freezeRun [fun _ => 5] (fun _ => 1) k =
      (fun _ : String => (1 : ℚ)) k) :=
  freeze_frame_spec [fun _ => 5] (fun _ => 1) (fun _ => 1) ["conv1.weight"]
    (by simp) (by simp) (fun k _ => rfl)

/-- `load_state_dict(state_dict, strict=False)` key bookkeeping (line 103):
`missing_keys` are the model's keys absent from the loaded dict, in model
order; `unexpected_keys` are the loaded dict's keys absent from the model. -/
def loadStateDictKeys (modelKeys loadedKeys : List String) : List String × List String :=
  (modelKeys.filter (fun k => !loadedKeys.contains k),
   loadedKeys.filter (fun k => !modelKeys.contains k))

/-- The assert of line 104:
`missing_keys == ['fc.weight', 'fc.bias'] and unexpected_keys == []`. -/
def pretrainedKeysOk (modelKeys loadedKeys : List String) : Bool :=
  (loadStateDictKeys modelKeys loadedKeys).1 == ["fc.weight", "fc.bias"] &&
  (loadStateDictKeys modelKeys loadedKeys).2 == []

/-- The classifier head's parameters. -/
structure FcParams where
  weight : List ℚ
  bias : List ℚ

/-- Lines 106-107: `fc.weight.data.normal_(mean=0.0, std=0.01)` and
`fc.bias.data.zero_()`; `z` stands for the stream of standard normal draws,
so weight entry `i` becomes `0 + (1/100)·z i` and every bias entry 0. -/
def reinitClassifier (z : ℕ → ℚ) (wn bn : ℕ) : FcParams :=
  ⟨(List.range wn).map (fun i => 0 + (1 / 100) * z i), List.replicate bn 0⟩

/-- Lines 102-107 as a whole: the worker proceeds past the pretrained load
(with a freshly reinitialised head) only when the assert holds, and fails
before any training otherwise. -/
def loadPretrained (modelKeys loadedKeys : List String) (z : ℕ → ℚ) (wn bn : ℕ) :
    Option FcParams :=
  if pretrainedKeysOk modelKeys loadedKeys then some (reinitClassifier z wn bn) else none

/-- Claim C9: loading proceeds only when the pretrained state dict matches the
chosen ResNet on every parameter except the classifier head — the missing
keys are exactly `['fc.weight', 'fc.bias']` and there are no unexpected
keys, which forces the loaded key set to be the model's keys minus the two
classifier keys; on success `fc.weight` is redrawn with mean 0 and standard
deviation 1/100 and `fc.bias` is zeroed, and on an assert failure nothing is
produced. -/
theorem pretrained_assert_spec (modelKeys loadedKeys : List String)
    (z : ℕ → ℚ) (wn bn : ℕ) :
    ((loadPretrained modelKeys loadedKeys z wn bn).isSome ↔
      pretrainedKeysOk modelKeys loadedKeys = true) ∧
    (pretrainedKeysOk modelKeys loadedKeys = true →
      ∀ k, k ∈ loadedKeys ↔ (k ∈ modelKeys ∧ k ≠ "fc.weight" ∧ k ≠ "fc.bias")) ∧
    (pretrainedKeysOk modelKeys loadedKeys = true →
      loadPretrained modelKeys loadedKeys z wn bn =
        some ⟨(List.range wn).map (fun i => 0 + (1 / 100) * z i),
          List.replicate bn 0⟩) ∧
    (pretrainedKeysOk modelKeys loadedKeys = false →
      loadPretrained modelKeys loadedKeys z wn bn = none) := by
  refine ⟨?_, ?_, ?_, ?_⟩
  · unfold loadPretrained
    by_cases h : pretrainedKeysOk modelKeys loadedKeys <;> simp [h]
  · intro hok k
    have hok2 : modelKeys.filter (fun k => !loadedKeys.contains k) =
        ["fc.weight", "fc.bias"] ∧
        loadedKeys.filter (fun k => !modelKeys.contains k) = [] := by
      simpa [pretrainedKeysOk, loadStateDictKeys, Bool.and_eq_true, beq_iff_eq]
        using hok
    have hmiss := hok2.1
    have hunex := hok2.2
    constructor
    · intro hkl
      have hkm : k ∈ modelKeys := by
        by_contra hkm
        have : k ∈ loadedKeys.filter (fun k => !modelKeys.contains k) :=
          List.mem_filter.2 ⟨hkl, by simp [hkm]⟩
        rw [hunex] at this
        simp at this
      refine ⟨hkm, ?_, ?_⟩
      · intro hkw
        have : "fc.weight" ∈ modelKeys.filter (fun k => !loadedKeys.contains k) := by
          rw [hmiss]; simp
        have hnl := (List.mem_filter.1 this).2
        rw [← hkw] at hnl
        simp [hkl] at hnl
      · intro hkb
        have : "fc.bias" ∈ modelKeys.filter (fun k => !loadedKeys.contains k) := by
          rw [hmiss]; simp
        have hnl := (List.mem_filter.1 this).2
        rw [← hkb] at hnl
        simp [hkl] at hnl
    · rintro ⟨hkm, hkw, hkb⟩
      by_contra hkl
      have : k ∈ modelKeys.filter (fun k => !loadedKeys.contains k) :=
        List.mem_filter.2 ⟨hkm, by simp [hkl]⟩
      rw [hmiss] at this
      simp [hkw, hkb] at this
  · intro hok
    unfold loadPretrained
    simp [hok, reinitClassifier]
  · intro hfail
    unfold loadPretrained
    simp [hfail]

/-- Witness for `pretrained_assert_spec` at concrete key lists: a model with
one backbone key plus the head, loaded from a dict holding only the backbone
key. -/
theorem pretrained_assert_spec_witness :
    ((loadPretrained ["conv1.weight", "fc.weight", "fc.bias"] ["conv1.weight"]
        (fun _ => 2) 3 4).isSome ↔
      pretrainedKeysOk ["conv1.weight", "fc.weight", "fc.bias"] ["conv1.weight"] = true) ∧
    (pretrainedKeysOk ["conv1.weight", "fc.weight", "fc.bias"] ["conv1.weight"] = true →
      ∀ k, k ∈ ["conv1.weight"] ↔
        (k ∈ ["conv1.weight", "fc.weight", "fc.bias"] ∧
          k ≠ "fc.weight" ∧ k ≠ "fc.bias")) ∧
    (pretrainedKeysOk ["conv1.weight", "fc.weight", "fc.bias"] ["conv1.weight"] = true →
      loadPretrained ["conv1.weight", "fc.weight", "fc.bias"] ["conv1.weight"]
          (fun _ => 2) 3 4 =
        some ⟨(List.range 3).map (fun i => 0 + (1 / 100) * (fun _ : ℕ => (2 : ℚ)) i),
          List.replicate 4 0⟩) ∧
    (pretrainedKeysOk ["conv1.weight", "fc.weight", "fc.bias"] ["conv1.weight"] = false →
      loadPretrained ["conv1.weight", "fc.weight", "fc.bias"] ["conv1.weight"]
          (fun _ => 2) 3 4 = none) :=
  pretrained_assert_spec ["conv1.weight", "fc.weight", "fc.bias"] ["conv1.weight"]
    (fun _ => 2) 3 4

/-- An externally visible action a signal handler can take. -/
inductive SysEffect where
  | runCommand : String → SysEffect
  | exitProcess : SysEffect

/-- `os.getenv` / `'…' in os.environ` over an association list. -/
def osGetenv (env : List (String × String)) (k : String) : Option String :=
  (env.find? (fun p => p.1 == k)).map (fun p => p.2)

/-- `handle_sigusr1` (lines 270-272): run
`scontrol requeue {os.getenv('SLURM_JOB_ID')}`, then `exit()`.  A missing
variable would interpolate as the string `None`, matching the f-string. -/
def handle_sigusr1 (env : List (String × String)) : List SysEffect :=
  [SysEffect.runCommand ("scontrol requeue " ++ (osGetenv env "SLURM_JOB_ID").getD "None"),
   SysEffect.exitProcess]

/-- `handle_sigterm` (lines 275-276): `pass` — no effect at all. -/
def handle_sigterm : List SysEffect := []

/-- Which handlers `main` installs. -/
structure InstalledHandlers where
  sigusr1 : Option (List SysEffect)
  sigterm : Option (List SysEffect)

/-- Lines 68-70: install both handlers iff `SLURM_JOB_ID` is in the
environment. -/
def installSignalHandlers (env : List (String × String)) : InstalledHandlers :=
  if (osGetenv env "SLURM_JOB_ID").isSome then
    ⟨some (handle_sigusr1 env), some handle_sigterm⟩
  else ⟨none, none⟩

/-- Claim C10: signal handlers are installed iff `SLURM_JOB_ID` is present;
when installed, the SIGUSR1 handler requeues the job through `scontrol` and
then exits the process, and the SIGTERM handler performs no action. -/
theorem signal_handler_spec (env : List (String × String)) :
    ((installSignalHandlers env).sigusr1.isSome ↔
      (osGetenv env "SLURM_JOB_ID").isSome) ∧
    ((installSignalHandlers env).sigterm.isSome ↔
      (osGetenv env "SLURM_JOB_ID").isSome) ∧
    (∀ jid, osGetenv env "SLURM_JOB_ID" = some jid →
      (installSignalHandlers env).sigusr1 =
        some [SysEffect.runCommand ("scontrol requeue " ++ jid),
          SysEffect.exitProcess]) ∧
    ((osGetenv env "SLURM_JOB_ID").isSome →
      (installSignalHandlers env).sigterm = some ([] : List SysEffect)) ∧
    (¬(osGetenv env "SLURM_JOB_ID").isSome →
      (installSignalHandlers env) = ⟨none, none⟩) := by
  unfold installSignalHandlers
  by_cases h : (osGetenv env "SLURM_JOB_ID").isSome
  · refine ⟨by simp [h], by simp [h, handle_sigterm], ?_, by simp [h, handle_sigterm],
      by simp [h]⟩
    intro jid hjid
    simp [h, handle_sigusr1, hjid]
  · refine ⟨by simp [h], by simp [h], ?_, by simp [h], by simp [h]⟩
    intro jid hjid
    rw [hjid] at h
    simp at h

/-- Witness for `signal_handler_spec` at a concrete environment. -/
theorem signal_handler_spec_witness :
    ((installSignalHandlers [("SLURM_JOB_ID", "123")]).sigusr1.isSome ↔
      (osGetenv [("SLURM_JOB_ID", "123")] "SLURM_JOB_ID").isSome) ∧
    ((installSignalHandlers [("SLURM_JOB_ID", "123")]).sigterm.isSome ↔
      (osGetenv [("SLURM_JOB_ID", "123")] "SLURM_JOB_ID").isSome) ∧
    (∀ jid, osGetenv [("SLURM_JOB_ID", "123")] "SLURM_JOB_ID" = some jid →
      (installSignalHandlers [("SLURM_JOB_ID", "123")]).sigusr1 =
        some [SysEffect.runCommand ("scontrol requeue " ++ jid),
          SysEffect.exitProcess]) ∧
    ((osGetenv [("SLURM_JOB_ID", "123")] "SLURM_JOB_ID").isSome →
      (installSignalHandlers [("SLURM_JOB_ID", "123")]).sigterm =
        some ([] : List SysEffect)) ∧
    (¬(osGetenv [("SLURM_JOB_ID", "123")] "SLURM_JOB_ID").isSome →
      (installSignalHandlers [("SLURM_JOB_ID", "123")]) = ⟨none, none⟩) :=
  signal_handler_spec [("SLURM_JOB_ID", "123")]
